import Mathlib

/-!
# MolDraw2DCairo: a shallow embedding of the cairo rendering backend

Source: `Code/GraphMol/MolDraw2D/MolDraw2DCairo.cpp`.

* Numbers (`double` in the source) are elements of a field `K`, so all
  arithmetic is exact; order-sensitive code (`std::max`) asks for a linearly
  ordered field.  Every definition is computable at `K = ℚ`.
* `unsigned int` values are natural numbers below `2 ^ 32`; the one place
  where the source increments such a value reduces modulo `2 ^ 32`.
* The cairo context `cairo_t` is a record holding the pieces of drawing state
  that the source reads back (line cap, line join, font size) together with
  the ordered list of drawing calls issued so far.
* `PRECONDITION` failures are `Except.error` carrying the message of the check.
* Members of the base class `MolDraw2D` (declared in a header that is not part
  of the sources at hand) are fields of the record `MolDraw2D`.
-/

namespace RDKit

/-! ## Geometry and colours -/

/-- The point type `RDGeom::Point2D`: a pair of coordinates. -/
structure Point2D (K : Type) where
  x : K
  y : K

namespace Point2D

variable {K : Type} [Field K]

/-- The operator `Point2D + Point2D`. -/
instance instAdd : Add (Point2D K) := ⟨fun a b => ⟨a.x + b.x, a.y + b.y⟩⟩

/-- The operator `Point2D - Point2D`. -/
instance instSub : Sub (Point2D K) := ⟨fun a b => ⟨a.x - b.x, a.y - b.y⟩⟩

/-- The operator `Point2D * double` (also used for `*=`). -/
instance instHMul : HMul (Point2D K) K (Point2D K) := ⟨fun a v => ⟨a.x * v, a.y * v⟩⟩

/-- The operator `Point2D / double` (also used for `/=`). -/
instance instHDiv : HDiv (Point2D K) K (Point2D K) := ⟨fun a v => ⟨a.x / v, a.y / v⟩⟩

end Point2D

/-- The colour type `DrawColour`: three channel intensities. -/
structure DrawColour (K : Type) where
  r : K
  g : K
  b : K

/-! ## The cairo context -/

/-- The enumeration `cairo_line_cap_t`. -/
inductive cairo_line_cap_t where
  | BUTT
  | ROUND
  | SQUARE
  deriving DecidableEq, Repr

/-- The enumeration `cairo_line_join_t`. -/
inductive cairo_line_join_t where
  | MITER
  | ROUND
  | BEVEL
  deriving DecidableEq, Repr

/-- The two fields of `cairo_text_extents_t` that the source reads. -/
structure cairo_text_extents_t (K : Type) where
  x_advance : K
  height : K

/-- One state-changing or drawing call made on a cairo context, with its arguments. -/
inductive CairoCall (K : Type) where
  | select_font_face (family : String)
  | set_font_size (size : K)
  | set_line_cap (cap : cairo_line_cap_t)
  | set_line_join (join : cairo_line_join_t)
  | set_source_rgb (r g b : K)
  | set_line_width (width : K)
  | set_dash (dashes : List K) (offset : K)
  | move_to (x y : K)
  | line_to (x y : K)
  | curve_to (x1 y1 x2 y2 x3 y3 : K)
  | close_path
  | fill_preserve
  | fill
  | stroke
  | rectangle (x y width height : K)
  | show_text (utf8 : List Char)
  deriving DecidableEq

/-- The cairo context `cairo_t`, as far as the source observes it: the line
cap and join (read back by `cairo_get_line_cap` / `cairo_get_line_join`), the
font size (which determines what `cairo_text_extents` answers), the glyph
metrics of the selected font as a function of font size and text, and the
calls issued so far, oldest first. -/
structure cairo_t (K : Type) where
  line_cap : cairo_line_cap_t
  line_join : cairo_line_join_t
  font_size : K
  glyph_metrics : K → List Char → cairo_text_extents_t K
  calls : List (CairoCall K)

section Cairo

variable {K : Type}

/-- Record a call at the end of the call list. -/
def cairo_t.issue (cr : cairo_t K) (c : CairoCall K) : cairo_t K :=
  { cr with calls := cr.calls ++ [c] }

def cairo_select_font_face (cr : cairo_t K) (family : String) : cairo_t K :=
  cr.issue (.select_font_face family)

def cairo_set_font_size (cr : cairo_t K) (size : K) : cairo_t K :=
  { cr with font_size := size, calls := cr.calls ++ [.set_font_size size] }

def cairo_set_line_cap (cr : cairo_t K) (cap : cairo_line_cap_t) : cairo_t K :=
  { cr with line_cap := cap, calls := cr.calls ++ [.set_line_cap cap] }

def cairo_set_line_join (cr : cairo_t K) (join : cairo_line_join_t) : cairo_t K :=
  { cr with line_join := join, calls := cr.calls ++ [.set_line_join join] }

def cairo_get_line_cap (cr : cairo_t K) : cairo_line_cap_t := cr.line_cap

def cairo_get_line_join (cr : cairo_t K) : cairo_line_join_t := cr.line_join

def cairo_set_source_rgb (cr : cairo_t K) (r g b : K) : cairo_t K :=
  cr.issue (.set_source_rgb r g b)

def cairo_set_line_width (cr : cairo_t K) (width : K) : cairo_t K :=
  cr.issue (.set_line_width width)

def cairo_set_dash (cr : cairo_t K) (dashes : List K) (offset : K) : cairo_t K :=
  cr.issue (.set_dash dashes offset)

def cairo_move_to (cr : cairo_t K) (x y : K) : cairo_t K := cr.issue (.move_to x y)

def cairo_line_to (cr : cairo_t K) (x y : K) : cairo_t K := cr.issue (.line_to x y)

def cairo_curve_to (cr : cairo_t K) (x1 y1 x2 y2 x3 y3 : K) : cairo_t K :=
  cr.issue (.curve_to x1 y1 x2 y2 x3 y3)

def cairo_close_path (cr : cairo_t K) : cairo_t K := cr.issue .close_path

def cairo_fill_preserve (cr : cairo_t K) : cairo_t K := cr.issue .fill_preserve

def cairo_fill (cr : cairo_t K) : cairo_t K := cr.issue .fill

def cairo_stroke (cr : cairo_t K) : cairo_t K := cr.issue .stroke

def cairo_rectangle (cr : cairo_t K) (x y width height : K) : cairo_t K :=
  cr.issue (.rectangle x y width height)

def cairo_show_text (cr : cairo_t K) (utf8 : List Char) : cairo_t K :=
  cr.issue (.show_text utf8)

/-- The query `cairo_text_extents`: it leaves the context unchanged and
answers from the glyph metrics at the current font size. -/
def cairo_text_extents (cr : cairo_t K) (utf8 : List Char) : cairo_text_extents_t K :=
  cr.glyph_metrics cr.font_size utf8

end Cairo

/-! ## The drawing object -/

/-- The text draw mode `TextDrawType`. -/
inductive TextDrawType where
  | TextDrawNormal
  | TextDrawSuperscript
  | TextDrawSubscript
  deriving DecidableEq, Repr

/-- What the source uses of the base class `MolDraw2D`: the coordinate mapper,
the perpendicular helper, the resolved line width (an `unsigned int`), the dash
pattern, the two font sizes, the polygon fill flag, the background colour, the
canvas extent and the current colour. -/
structure MolDraw2D (K : Type) where
  getDrawCoords : Point2D K → Point2D K
  calcPerpendicular : Point2D K → Point2D K → Point2D K
  getDrawLineWidth : Nat
  dash : List K
  fontSize : K
  drawFontSize : K
  fillPolys : Bool
  backgroundColour : DrawColour K
  width : Int
  height : Int
  colour : DrawColour K

/-- The class `MolDraw2DCairo`: the base class plus the context pointer
`dp_cr`, where `none` is the null pointer. -/
structure MolDraw2DCairo (K : Type) extends MolDraw2D K where
  dp_cr : Option (cairo_t K)

section Drawing

variable {K : Type} [Field K]

/-- The method `MolDraw2DCairo::initDrawing`. -/
def initDrawing (d : MolDraw2DCairo K) : Except String (MolDraw2DCairo K) :=
  match d.dp_cr with
  | none => .error "no draw context"
  | some cr =>
    let cr := cairo_select_font_face cr "sans"
    let cr := cairo_set_font_size cr d.fontSize
    let cr := cairo_set_line_cap cr .BUTT
    .ok { d with dp_cr := some cr }

/-- The method `MolDraw2DCairo::setColour`: the base class stores the colour,
then the cairo source colour is set. -/
def setColour (d : MolDraw2DCairo K) (col : DrawColour K) : Except String (MolDraw2DCairo K) :=
  match d.dp_cr with
  | none => .error "no draw context"
  | some cr =>
    .ok { d with colour := col, dp_cr := some (cairo_set_source_rgb cr col.r col.g col.b) }

/-- The method `MolDraw2DCairo::drawLine`. -/
def drawLine (d : MolDraw2DCairo K) (cds1 cds2 : Point2D K) : Except String (MolDraw2DCairo K) :=
  match d.dp_cr with
  | none => .error "no draw context"
  | some cr =>
    let c1 := d.getDrawCoords cds1
    let c2 := d.getDrawCoords cds2
    let width : Nat := d.getDrawLineWidth
    let cr := cairo_set_line_width cr (width : K)
    let dashes := d.dash
    let cr := if dashes.length ≠ 0 then cairo_set_dash cr dashes 0 else cairo_set_dash cr [] 0
    let cr := cairo_move_to cr c1.x c1.y
    let cr := cairo_line_to cr c2.x c2.y
    let cr := cairo_stroke cr
    .ok { d with dp_cr := some cr }

/-- The context pointer after one more cairo call on the context it points to. -/
def MolDraw2DCairo.on (d : MolDraw2DCairo K) (f : cairo_t K → cairo_t K) : MolDraw2DCairo K :=
  { d with dp_cr := d.dp_cr.map f }

/-- Body of the `for` loop of `drawWavyLine` at loop index `i`; `delta` and
`perp` are the values computed before the loop. -/
def drawWavyLine.body (cds1 delta perp : Point2D K) (d : MolDraw2DCairo K) (i : Nat) :
    MolDraw2DCairo K :=
  let startpt := cds1 + delta * (i : K)
  let segpt := d.getDrawCoords (startpt + delta)
  let cpt1 := d.getDrawCoords (startpt + delta / (3 : K) + perp * (if i % 2 ≠ 0 then (-1 : K) else 1))
  let cpt2 :=
    d.getDrawCoords (startpt + delta * (2 : K) / (3 : K) + perp * (if i % 2 ≠ 0 then (-1 : K) else 1))
  d.on (cairo_curve_to · cpt1.x cpt1.y cpt2.x cpt2.y segpt.x segpt.y)

/-- The method `MolDraw2DCairo::drawWavyLine`.  `nSegments` is an
`unsigned int`, so `++nSegments` is taken modulo `2 ^ 32`; the loop index runs
over `0, ..., nSegments - 1`.  `col2` is unused, as in the source. -/
def drawWavyLine (d : MolDraw2DCairo K) (cds1 cds2 : Point2D K) (col1 _col2 : DrawColour K)
    (nSegments : Nat) (vertOffset : K) : Except String (MolDraw2DCairo K) :=
  match d.dp_cr with
  | none => .error "no draw context"
  | some cr =>
    if ¬ nSegments > 1 then .error "too few segments" else
    let nSegments := if nSegments % 2 ≠ 0 then (nSegments + 1) % 2 ^ 32 else nSegments
    let perp := d.calcPerpendicular cds1 cds2
    let delta := cds2 - cds1
    let perp := perp * vertOffset
    let delta := delta / (nSegments : K)
    let c1 := d.getDrawCoords cds1
    let width : Nat := d.getDrawLineWidth
    let cr := cairo_set_line_width cr (width : K)
    let cr := cairo_set_dash cr [] 0
    match setColour { d with dp_cr := some cr } col1 with
    | .error e => .error e
    | .ok d =>
      let d := d.on (cairo_move_to · c1.x c1.y)
      let d := (List.range nSegments).foldl (drawWavyLine.body cds1 delta perp) d
      .ok (d.on cairo_stroke)

/-- The array `char txt[2]` with `txt[0] = c` and `txt[1] = 0`, read as a
NUL-terminated string. -/
def cString (c : Char) : List Char := if c = Char.ofNat 0 then [] else [c]

/-- The method `MolDraw2DCairo::drawChar`; the factor `1.5` of the source is `3/2`. -/
def drawChar (d : MolDraw2DCairo K) (c : Char) (cds : Point2D K) :
    Except String (MolDraw2DCairo K) :=
  match d.dp_cr with
  | none => .error "no draw context"
  | some cr =>
    let txt := cString c
    let cr := cairo_set_font_size cr d.drawFontSize
    let cr := if c = '.' then cairo_set_font_size cr ((3 / 2 : K) * d.drawFontSize) else cr
    let _extents := cairo_text_extents cr txt
    let c1 := cds
    let cr := cairo_move_to cr c1.x c1.y
    let cr := cairo_show_text cr txt
    let cr := cairo_stroke cr
    let cr := cairo_set_font_size cr d.fontSize
    .ok { d with dp_cr := some cr }

/-- The method `MolDraw2DCairo::drawPolygon` as a state transformer; `cds` is
the `std::vector` of points.  The result is the object after the call together
with the outcome: a failed `PRECONDITION` throws, which leaves the object, and
with it the context, as it is at that point. -/
def drawPolygon.run (d : MolDraw2DCairo K) (cds : List (Point2D K)) :
    MolDraw2DCairo K × Except String Unit :=
  match d.dp_cr with
  | none => (d, .error "no draw context")
  | some cr =>
    if ¬ cds.length ≥ 3 then (d, .error "must have at least three points") else
    let width : Nat := d.getDrawLineWidth
    let olinecap := cairo_get_line_cap cr
    let olinejoin := cairo_get_line_join cr
    let cr := cairo_set_line_cap cr .BUTT
    let cr := cairo_set_line_join cr .BEVEL
    let cr := cairo_set_dash cr [] 0
    let cr := cairo_set_line_width cr (width : K)
    let cr :=
      match cds with
      | [] => cr
      | front :: rest =>
        let lc := d.getDrawCoords front
        let cr := cairo_move_to cr lc.x lc.y
        rest.foldl (fun cr p => let lci := d.getDrawCoords p; cairo_line_to cr lci.x lci.y) cr
    let cr := if d.fillPolys then cairo_fill_preserve (cairo_close_path cr) else cr
    let cr := cairo_stroke cr
    let cr := cairo_set_line_cap cr olinecap
    let cr := cairo_set_line_join cr olinejoin
    ({ d with dp_cr := some cr }, .ok ())

/-- The method `MolDraw2DCairo::drawPolygon` for a caller that goes on after a
normal return only: the object after the call, or the message of the failed
check. -/
def drawPolygon (d : MolDraw2DCairo K) (cds : List (Point2D K)) :
    Except String (MolDraw2DCairo K) :=
  match drawPolygon.run d cds with
  | (d1, .ok _) => .ok d1
  | (_, .error e) => .error e

/-- The method `MolDraw2DCairo::clearDrawing`. -/
def clearDrawing (d : MolDraw2DCairo K) : Except String (MolDraw2DCairo K) :=
  match d.dp_cr with
  | none => .error "no draw context"
  | some _ =>
    match setColour d d.backgroundColour with
    | .error e => .error e
    | .ok d =>
      let d := d.on (cairo_rectangle · 0 0 (d.width : K) (d.height : K))
      .ok (d.on cairo_fill)

end Drawing

/-! ## Text metrics -/

/-- The first `n` characters of `instring` from position `pos` on:
`instring.substr(pos, n)`. -/
def substr (instring : List Char) (pos n : Nat) : List Char := (instring.drop pos).take n

/-- Modelled from the spec: the base-class helper `MolDraw2D::setStringDrawMode`
is not part of the sources at hand.  A markup tag at position `i` switches the
text draw mode and moves `i` to the last character of the tag (the caller's
loop increment then steps past it); anything else leaves mode and index alone
and reports `false`.  The tags are the `<sub>` and `<sup>` markup named in the
comment of `getStringSize`, with their closing forms.  The result is the
returned flag, the new draw mode and the new index. -/
def setStringDrawMode (instring : List Char) (draw_mode : TextDrawType) (i : Nat) :
    Bool × TextDrawType × Nat :=
  let bit1 := substr instring i 5
  let bit2 := substr instring i 6
  if bit1 = ['<', 's', 'u', 'b', '>'] then (true, .TextDrawSubscript, i + 4)
  else if bit1 = ['<', 's', 'u', 'p', '>'] then (true, .TextDrawSuperscript, i + 4)
  else if bit2 = ['<', '/', 's', 'u', 'b', '>'] then (true, .TextDrawNormal, i + 5)
  else if bit2 = ['<', '/', 's', 'u', 'p', '>'] then (true, .TextDrawNormal, i + 5)
  else (false, draw_mode, i)

/-- The variables that the scanning loop of `getStringSize` updates. -/
structure LabelScan (K : Type) where
  label_width : K
  label_height : K
  draw_mode : TextDrawType
  had_a_super : Bool

section Metrics

variable {K : Type} [LinearOrderedField K]

/-- The `for` loop of `getStringSize` from loop index `i` on.  The test
`'<' == label[i] && setStringDrawMode(label, draw_mode, i)` calls the helper
only at a `<`; `continue` runs the loop increment on the index the helper left.
The `int` index and bound of the source are natural numbers here: labels are
shorter than `2 ^ 31` characters, so that no conversion to `int` wraps. -/
def getStringSize.loop (cr : cairo_t K) (label : List Char) (i : Nat) (st : LabelScan K) :
    LabelScan K :=
  if h : i < label.length then
    let r := if label[i] = '<' then setStringDrawMode label st.draw_mode i
      else (false, st.draw_mode, i)
    if r.1 = true then
      have : label.length - (r.2.2 + 1) < label.length - i := by
        have hge : i ≤ r.2.2 := by
          show i ≤ (if label[i] = '<' then setStringDrawMode label st.draw_mode i
            else (false, st.draw_mode, i)).2.2
          unfold setStringDrawMode
          simp only []
          split_ifs <;> simp
        omega
      getStringSize.loop cr label (r.2.2 + 1) { st with draw_mode := r.2.1 }
    else
      let txt := cString label[i]
      let extents := cairo_text_extents cr txt
      let twidth := extents.x_advance
      let theight := extents.height
      let label_height := max st.label_height theight
      let char_width := twidth
      let st1 : LabelScan K :=
        if st.draw_mode = .TextDrawSubscript then
          { st with label_height := label_height,
                    label_width := st.label_width + char_width * (3 / 4 : K) }
        else if st.draw_mode = .TextDrawSuperscript then
          { st with label_height := label_height,
                    label_width := st.label_width + char_width * (3 / 4 : K),
                    had_a_super := true }
        else
          { st with label_height := label_height, label_width := st.label_width + char_width }
      getStringSize.loop cr label (i + 1) st1
  else st
termination_by label.length - i

/-- The method `MolDraw2DCairo::getStringSize`: the context after the call
together with the outputs `label_width` and `label_height`.  The constants
`0.75`, `1.25` and `1.2` of the source are `3/4`, `5/4` and `6/5`. -/
def getStringSize (d : MolDraw2DCairo K) (label : List Char) :
    Except String (MolDraw2DCairo K × K × K) :=
  match d.dp_cr with
  | none => .error "no draw context"
  | some cr =>
    let cr := cairo_set_font_size cr d.fontSize
    let st := getStringSize.loop cr label 0
      { label_width := 0, label_height := 0, draw_mode := .TextDrawNormal, had_a_super := false }
    let label_height := if st.had_a_super then st.label_height * (5 / 4 : K) else st.label_height
    let label_height := label_height * (6 / 5 : K)
    .ok ({ d with dp_cr := some cr }, st.label_width, label_height)

end Metrics

/-! ## Serialisation -/

/-- The status codes of `cairo_status_t` that matter to a write callback. -/
inductive cairo_status_t where
  | SUCCESS
  | WRITE_ERROR
  deriving DecidableEq, Repr

/-- The write callback `grab_str`: `closure` is the string it points to,
`data` the buffer handed over and `len` the number of bytes to take from it. -/
def grab_str (closure : List UInt8) (data : List UInt8) (len : Nat) :
    List UInt8 × cairo_status_t :=
  (closure ++ data.take len, .SUCCESS)

/-- The library routine `cairo_surface_write_to_png_stream`, driven by the
chunks `emitted` that its encoder produces for the surface: each chunk is
handed to the callback with its length, in order, until a callback reports
something other than success. -/
def cairo_surface_write_to_png_stream {σ : Type} (emitted : List (List UInt8))
    (write_func : σ → List UInt8 → Nat → σ × cairo_status_t) (closure : σ) :
    σ × cairo_status_t :=
  match emitted with
  | [] => (closure, .SUCCESS)
  | chunk :: rest =>
    match write_func closure chunk chunk.length with
    | (closure, .SUCCESS) => cairo_surface_write_to_png_stream rest write_func closure
    | (closure, status) => (closure, status)

/-- The method `MolDraw2DCairo::getDrawingText`; `emitted` is the chunk
sequence the encoder produces for the target surface of the context. -/
def getDrawingText {K : Type} (d : MolDraw2DCairo K) (emitted : List (List UInt8)) :
    Except String (List UInt8) :=
  match d.dp_cr with
  | none => .error "no draw context"
  | some _ =>
    let res : List UInt8 := []
    let out := cairo_surface_write_to_png_stream emitted grab_str res
    .ok out.1

/-! ## Notions used to state the properties -/

section SpecNotions

variable {K : Type} [Field K]

/-- The calls that `drawPolygon` issues between forcing butt caps and bevel
joins and the final stroke. -/
def polygonInnerCalls (d : MolDraw2DCairo K) (cds : List (Point2D K)) : List (CairoCall K) :=
  [CairoCall.set_dash [] 0, CairoCall.set_line_width (d.getDrawLineWidth : K)] ++
    (match cds with
      | [] => []
      | front :: rest =>
        CairoCall.move_to (d.getDrawCoords front).x (d.getDrawCoords front).y ::
          rest.map (fun p => CairoCall.line_to (d.getDrawCoords p).x (d.getDrawCoords p).y)) ++
    (if d.fillPolys then [CairoCall.close_path, CairoCall.fill_preserve] else [])

/-- A call that changes the line cap or the line join. -/
def CairoCall.setsCapOrJoin : CairoCall K → Bool
  | .set_line_cap _ => true
  | .set_line_join _ => true
  | _ => false

/-- The segment count that `drawWavyLine` works with after its parity
adjustment: an odd count is incremented as an `unsigned int`. -/
def effectiveSegments (nSegments : Nat) : Nat :=
  if nSegments % 2 ≠ 0 then (nSegments + 1) % 2 ^ 32 else nSegments

/-- The start point `cds1 + delta * i` of segment `i` of a wavy line. -/
def wavyStart (cds1 delta : Point2D K) (i : Nat) : Point2D K := cds1 + delta * (i : K)

/-- The sign `(i % 2 ? -1 : 1)` of segment `i` of a wavy line. -/
def wavySign (i : Nat) : K := if i % 2 ≠ 0 then -1 else 1

/-- The first control point handed to `cairo_curve_to` for a segment that starts at `startpt`. -/
def wavyControl1 (g : Point2D K → Point2D K) (startpt delta perp : Point2D K) (sign : K) :
    Point2D K :=
  g (startpt + delta / (3 : K) + perp * sign)

/-- The second control point handed to `cairo_curve_to` for a segment that starts at `startpt`. -/
def wavyControl2 (g : Point2D K → Point2D K) (startpt delta perp : Point2D K) (sign : K) :
    Point2D K :=
  g (startpt + delta * (2 : K) / (3 : K) + perp * sign)

/-- The `curve_to` call of loop index `i` of `drawWavyLine`. -/
def wavyCurveCall (g : Point2D K → Point2D K) (cds1 delta perp : Point2D K) (i : Nat) :
    CairoCall K :=
  CairoCall.curve_to
    (wavyControl1 g (wavyStart cds1 delta i) delta perp (wavySign i)).x
    (wavyControl1 g (wavyStart cds1 delta i) delta perp (wavySign i)).y
    (wavyControl2 g (wavyStart cds1 delta i) delta perp (wavySign i)).x
    (wavyControl2 g (wavyStart cds1 delta i) delta perp (wavySign i)).y
    (g (wavyStart cds1 delta i + delta)).x
    (g (wavyStart cds1 delta i + delta)).y

/-- The step `delta` of `drawWavyLine`: the difference of the endpoints
divided by the adjusted segment count. -/
def wavyDelta (cds1 cds2 : Point2D K) (nSegments : Nat) : Point2D K :=
  (cds2 - cds1) / ((effectiveSegments nSegments : Nat) : K)

/-- The displacement `perp` of `drawWavyLine`: the perpendicular of the base
class scaled by the vertical offset. -/
def wavyPerp (d : MolDraw2DCairo K) (cds1 cds2 : Point2D K) (vertOffset : K) : Point2D K :=
  d.calcPerpendicular cds1 cds2 * vertOffset

/-- The calls with which `drawWavyLine` opens: line width, solid dash, colour
and the move to the mapped first endpoint. -/
def wavyOpeningCalls (d : MolDraw2DCairo K) (cds1 : Point2D K) (col1 : DrawColour K) :
    List (CairoCall K) :=
  [CairoCall.set_line_width (d.getDrawLineWidth : K), CairoCall.set_dash [] 0,
   CairoCall.set_source_rgb col1.r col1.g col1.b,
   CairoCall.move_to (d.getDrawCoords cds1).x (d.getDrawCoords cds1).y]

/-- The number of calls on the context of a result; `0` for a failed call. -/
def callCount (r : Except String (MolDraw2DCairo K)) : Nat :=
  match r with
  | .ok d =>
    match d.dp_cr with
    | some cr => cr.calls.length
    | none => 0
  | .error _ => 0

/-- A cubic Bezier arc: start point, two control points, end point. -/
structure BezierArc (K : Type) where
  p0 : Point2D K
  p1 : Point2D K
  p2 : Point2D K
  p3 : Point2D K

/-- The point of a cubic Bezier arc at parameter `t`. -/
def BezierArc.point (arc : BezierArc K) (t : K) : Point2D K :=
  ⟨(1 - t) ^ 3 * arc.p0.x + 3 * (1 - t) ^ 2 * t * arc.p1.x + 3 * (1 - t) * t ^ 2 * arc.p2.x
      + t ^ 3 * arc.p3.x,
   (1 - t) ^ 3 * arc.p0.y + 3 * (1 - t) ^ 2 * t * arc.p1.y + 3 * (1 - t) * t ^ 2 * arc.p2.y
      + t ^ 3 * arc.p3.y⟩

/-- The Bezier arcs that a list of calls adds to the path, given the current
point before the first call: `move_to` and `line_to` move the current point,
`curve_to` adds the arc from the current point through its two control points
to its end point, which becomes the current point. -/
def bezierArcs (cur : Point2D K) : List (CairoCall K) → List (BezierArc K)
  | [] => []
  | .move_to x y :: cs => bezierArcs ⟨x, y⟩ cs
  | .line_to x y :: cs => bezierArcs ⟨x, y⟩ cs
  | .curve_to x1 y1 x2 y2 x3 y3 :: cs =>
    ⟨cur, ⟨x1, y1⟩, ⟨x2, y2⟩, ⟨x3, y3⟩⟩ :: bezierArcs ⟨x3, y3⟩ cs
  | _ :: cs => bezierArcs cur cs

/-- The Bezier arc of segment `i` of a wavy line: from the mapped start point
of the segment through the two control points to the mapped start point of the
next segment. -/
def wavyArc (g : Point2D K → Point2D K) (cds1 delta perp : Point2D K) (i : Nat) : BezierArc K :=
  ⟨g (wavyStart cds1 delta i), wavyControl1 g (wavyStart cds1 delta i) delta perp (wavySign i),
   wavyControl2 g (wavyStart cds1 delta i) delta perp (wavySign i),
   g (wavyStart cds1 delta (i + 1))⟩

/-- Modelled from the spec: the base-class helper `calcPerpendicular` is not
part of the sources at hand; the spec has it "compute the perpendicular unit
direction to the line".  `u` is such a direction for the line from `cds1` to
`cds2`: orthogonal to the difference of the endpoints and of length one. -/
def IsUnitPerpendicular (cds1 cds2 u : Point2D K) : Prop :=
  u.x * (cds2.x - cds1.x) + u.y * (cds2.y - cds1.y) = 0 ∧ u.x ^ 2 + u.y ^ 2 = 1

end SpecNotions

section OrderedNotions

variable {K : Type} [LinearOrderedField K]

/-- `dist` is the perpendicular distance of `q` from the line through the
distinct points `a` and `b`: it is not negative and its square times the
squared length of `b - a` is the squared cross product of `b - a` and `q - a`. -/
def IsPerpDistance (a b q : Point2D K) (dist : K) : Prop :=
  0 ≤ dist ∧
  dist ^ 2 * ((b.x - a.x) ^ 2 + (b.y - a.y) ^ 2) =
    ((b.x - a.x) * (q.y - a.y) - (b.y - a.y) * (q.x - a.x)) ^ 2

/-- `amp` is the amplitude of `arc` over the line through `a` and `b`: the
largest perpendicular distance from that line of a point of the arc, the
parameter running over `[0, 1]`. -/
def IsAmplitude (a b : Point2D K) (arc : BezierArc K) (amp : K) : Prop :=
  (∀ t dist, 0 ≤ t → t ≤ 1 → IsPerpDistance a b (arc.point t) dist → dist ≤ amp) ∧
  ∃ t, 0 ≤ t ∧ t ≤ 1 ∧ IsPerpDistance a b (arc.point t) amp

end OrderedNotions


/-! ## Notions used to state the text properties -/

/-- The markup tag with which `l` begins, if any: the text draw mode it
switches to and the number of characters after its `<`. -/
def tagAt (l : List Char) : Option (TextDrawType × Nat) :=
  if l.take 5 = ['<', 's', 'u', 'b', '>'] then some (.TextDrawSubscript, 4)
  else if l.take 5 = ['<', 's', 'u', 'p', '>'] then some (.TextDrawSuperscript, 4)
  else if l.take 6 = ['<', '/', 's', 'u', 'b', '>'] then some (.TextDrawNormal, 5)
  else if l.take 6 = ['<', '/', 's', 'u', 'p', '>'] then some (.TextDrawNormal, 5)
  else none

/-- The four markup tags. -/
def markupTags : List (List Char) :=
  [['<', 's', 'u', 'b', '>'], ['<', 's', 'u', 'p', '>'], ['<', '/', 's', 'u', 'b', '>'],
   ['<', '/', 's', 'u', 'p', '>']]

/-- The character `c` appended to the label `s` is a literal character: it does
not complete a markup tag, that is, no markup tag is a suffix of `s ++ [c]`. -/
def IsLiteralAfter (s : List Char) (c : Char) : Prop :=
  ∀ tag ∈ markupTags, ¬ tag <:+ s ++ [c]

section TextNotions

variable {K : Type} [LinearOrderedField K]

/-- The update of the loop variables of `getStringSize` for one glyph `c`. -/
def addGlyph (cr : cairo_t K) (c : Char) (st : LabelScan K) : LabelScan K :=
  let extents := cairo_text_extents cr (cString c)
  let label_height := max st.label_height extents.height
  if st.draw_mode = .TextDrawSubscript then
    { st with label_height := label_height,
              label_width := st.label_width + extents.x_advance * (3 / 4 : K) }
  else if st.draw_mode = .TextDrawSuperscript then
    { st with label_height := label_height,
              label_width := st.label_width + extents.x_advance * (3 / 4 : K),
              had_a_super := true }
  else
    { st with label_height := label_height, label_width := st.label_width + extents.x_advance }

/-- The scan of `getStringSize` over the characters that are left. -/
def scanChars (cr : cairo_t K) (l : List Char) (st : LabelScan K) : LabelScan K :=
  match l with
  | [] => st
  | c :: cs =>
    match tagAt (c :: cs) with
    | some (mode, k) => scanChars cr (cs.drop k) { st with draw_mode := mode }
    | none => scanChars cr cs (addGlyph cr c st)
termination_by l.length
decreasing_by
  all_goals simp_wf
  · have := List.length_drop k cs
    omega

/-- The values of the loop variables of `getStringSize` before the loop. -/
def scanStart : LabelScan K :=
  { label_width := 0, label_height := 0, draw_mode := .TextDrawNormal, had_a_super := false }

end TextNotions

/-! ## Sample objects

A concrete drawing object over `ℚ`, used to evaluate the embedding. -/

/-- A context with round caps and joins, font size `12`, glyphs that are
`size / 2` wide and `size` high, and no calls issued yet. -/
def sampleContextIn (K : Type) [Field K] : cairo_t K where
  line_cap := .ROUND
  line_join := .ROUND
  font_size := 12
  glyph_metrics := fun size _ => { x_advance := size / 2, height := size }
  calls := []

/-- A drawing object whose coordinate mapper scales by `2` and translates by
`(10, 20)`; its perpendicular helper turns the difference of the two points by
a quarter turn and divides by `5`, which gives the unit perpendicular when the
two points are at distance `5`. -/
def sampleDrawIn (K : Type) [Field K] : MolDraw2DCairo K where
  getDrawCoords := fun p => ⟨2 * p.x + 10, 2 * p.y + 20⟩
  calcPerpendicular := fun a b => ⟨(b.y - a.y) / 5, (a.x - b.x) / 5⟩
  getDrawLineWidth := 2
  dash := [3, 1]
  fontSize := 10
  drawFontSize := 20
  fillPolys := true
  backgroundColour := ⟨1, 1, 1⟩
  width := 300
  height := 200
  colour := ⟨0, 0, 0⟩
  dp_cr := some (sampleContextIn K)

/-- The sample context over the rationals. -/
def sampleContext : cairo_t ℚ := sampleContextIn ℚ

/-- The sample drawing object over the rationals. -/
def sampleDraw : MolDraw2DCairo ℚ := sampleDrawIn ℚ

/-- First endpoint of the sample wavy line. -/
def sampleStart : Point2D ℚ := ⟨0, 0⟩

/-- Second endpoint of the sample wavy line, at distance `5` from the first. -/
def sampleEnd : Point2D ℚ := ⟨3, 4⟩

/-- A sample first colour. -/
def sampleRed : DrawColour ℚ := ⟨1, 0, 0⟩

/-- A sample second colour. -/
def sampleBlue : DrawColour ℚ := ⟨0, 0, 1⟩

/-! # Theorems -/

/-! ## Lines -/

section LineTheorems

variable {K : Type} [Field K]

/-- C9: on an initialised canvas `drawLine p1 p2` succeeds, leaves everything
but the call list alone and appends exactly five calls: set the line width to
the resolved draw width; set the dash to the current dash pattern with offset
`0` (for an empty pattern this is the solid setting, no dashes); move-to the
mapped `p1`; line-to the mapped `p2`; stroke. -/
theorem drawLine_calls (d : MolDraw2DCairo K) (cr : cairo_t K) (p1 p2 : Point2D K)
    (hcr : d.dp_cr = some cr) :
    drawLine d p1 p2 = .ok { d with dp_cr := some { cr with calls := cr.calls ++
      [CairoCall.set_line_width (d.getDrawLineWidth : K),
       CairoCall.set_dash d.dash 0,
       CairoCall.move_to (d.getDrawCoords p1).x (d.getDrawCoords p1).y,
       CairoCall.line_to (d.getDrawCoords p2).x (d.getDrawCoords p2).y,
       CairoCall.stroke] } } := by
  unfold drawLine
  rw [hcr]
  by_cases hd : d.dash = []
  · simp [hd, cairo_set_line_width, cairo_set_dash, cairo_move_to, cairo_line_to, cairo_stroke,
      cairo_t.issue]
  · simp [hd, cairo_set_line_width, cairo_set_dash, cairo_move_to, cairo_line_to, cairo_stroke,
      cairo_t.issue]

theorem drawLine_calls_witness :
    drawLine sampleDraw ⟨0, 0⟩ ⟨10, 0⟩ = .ok { sampleDraw with dp_cr := some { sampleContext with
      calls := sampleContext.calls ++
      [CairoCall.set_line_width ((sampleDraw.getDrawLineWidth : ℕ) : ℚ),
       CairoCall.set_dash sampleDraw.dash 0,
       CairoCall.move_to (sampleDraw.getDrawCoords ⟨0, 0⟩).x (sampleDraw.getDrawCoords ⟨0, 0⟩).y,
       CairoCall.line_to (sampleDraw.getDrawCoords ⟨10, 0⟩).x (sampleDraw.getDrawCoords ⟨10, 0⟩).y,
       CairoCall.stroke] } } :=
  drawLine_calls sampleDraw sampleContext ⟨0, 0⟩ ⟨10, 0⟩ rfl

end LineTheorems

/-! ## Polygons -/

/-- The `line_to` loop of `drawPolygon` appends one call per point and touches nothing else. -/
theorem drawPolygon_lineTo_loop {K : Type} (g : Point2D K → Point2D K) (rest : List (Point2D K))
    (cr : cairo_t K) :
    rest.foldl (fun cr p => cairo_line_to cr (g p).x (g p).y) cr =
      { cr with calls := cr.calls ++ rest.map (fun p => CairoCall.line_to (g p).x (g p).y) } := by
  induction rest generalizing cr with
  | nil => simp
  | cons p rest ih =>
    rw [List.foldl_cons, ih]
    simp [cairo_line_to, cairo_t.issue]

section PolygonTheorems

variable {K : Type} [Field K]

/-- Closed form of a successful `drawPolygon`. -/
theorem drawPolygon_eq (d : MolDraw2DCairo K) (cr : cairo_t K) (cds : List (Point2D K))
    (hcr : d.dp_cr = some cr) (h3 : 3 ≤ cds.length) :
    drawPolygon d cds = .ok { d with dp_cr := some { cr with calls := cr.calls ++
      [CairoCall.set_line_cap .BUTT, CairoCall.set_line_join .BEVEL] ++ polygonInnerCalls d cds ++
      [CairoCall.stroke, CairoCall.set_line_cap cr.line_cap,
        CairoCall.set_line_join cr.line_join] } } := by
  unfold drawPolygon drawPolygon.run
  rw [hcr]
  have h3' : ¬ ¬ cds.length ≥ 3 := by simpa using h3
  simp only [h3', if_false]
  cases cds with
  | nil => simp at h3
  | cons front rest =>
    by_cases hf : d.fillPolys = true
    · simp [hf, polygonInnerCalls, drawPolygon_lineTo_loop, cairo_set_line_cap,
        cairo_set_line_join, cairo_get_line_cap, cairo_get_line_join, cairo_set_dash,
        cairo_set_line_width, cairo_move_to, cairo_stroke, cairo_close_path,
        cairo_fill_preserve, cairo_t.issue]
    · simp [hf, polygonInnerCalls, drawPolygon_lineTo_loop, cairo_set_line_cap,
        cairo_set_line_join, cairo_get_line_cap, cairo_get_line_join, cairo_set_dash,
        cairo_set_line_width, cairo_move_to, cairo_stroke, cairo_close_path,
        cairo_fill_preserve, cairo_t.issue]

/-- C7: `drawPolygon` on an initialised canvas with at least three points
succeeds, whatever the fill flag, and the line cap and line join of the
context after the call are those before it.  Butt caps and bevel joins are set
by the first two calls, no call up to and including the stroke changes them,
and the last two calls put the saved cap and join back. -/
theorem drawPolygon_restores_cap_join (d : MolDraw2DCairo K) (cr : cairo_t K)
    (cds : List (Point2D K)) (hcr : d.dp_cr = some cr) (h3 : 3 ≤ cds.length) :
    ∃ (cr1 : cairo_t K) (inner : List (CairoCall K)),
      drawPolygon d cds = .ok { d with dp_cr := some cr1 } ∧
      cairo_get_line_cap cr1 = cairo_get_line_cap cr ∧
      cairo_get_line_join cr1 = cairo_get_line_join cr ∧
      (∀ c ∈ inner, c.setsCapOrJoin = false) ∧
      cr1.calls = cr.calls ++
        [CairoCall.set_line_cap .BUTT, CairoCall.set_line_join .BEVEL] ++ inner ++
        [CairoCall.stroke, CairoCall.set_line_cap cr.line_cap,
          CairoCall.set_line_join cr.line_join] := by
  refine ⟨_, polygonInnerCalls d cds, drawPolygon_eq d cr cds hcr h3, rfl, rfl, ?_, rfl⟩
  intro c hc
  unfold polygonInnerCalls at hc
  simp only [List.mem_append, List.mem_cons, List.mem_singleton, List.not_mem_nil, or_false] at hc
  rcases hc with (hc | hc) | hc
  · rcases hc with rfl | rfl <;> rfl
  · cases cds with
    | nil => simp at hc
    | cons front rest =>
      simp only [List.mem_cons, List.mem_map] at hc
      rcases hc with rfl | ⟨p, -, rfl⟩ <;> rfl
  · split_ifs at hc
    · simp only [List.mem_cons, List.mem_singleton, List.not_mem_nil, or_false] at hc
      rcases hc with rfl | rfl <;> rfl
    · simp at hc

theorem drawPolygon_restores_cap_join_witness :
    ∃ (cr1 : cairo_t ℚ) (inner : List (CairoCall ℚ)),
      drawPolygon sampleDraw [⟨0, 0⟩, ⟨1, 0⟩, ⟨0, 1⟩] = .ok { sampleDraw with dp_cr := some cr1 } ∧
      cairo_get_line_cap cr1 = cairo_get_line_cap sampleContext ∧
      cairo_get_line_join cr1 = cairo_get_line_join sampleContext ∧
      (∀ c ∈ inner, c.setsCapOrJoin = false) ∧
      cr1.calls = sampleContext.calls ++
        [CairoCall.set_line_cap .BUTT, CairoCall.set_line_join .BEVEL] ++ inner ++
        [CairoCall.stroke, CairoCall.set_line_cap sampleContext.line_cap,
          CairoCall.set_line_join sampleContext.line_join] :=
  drawPolygon_restores_cap_join sampleDraw sampleContext [⟨0, 0⟩, ⟨1, 0⟩, ⟨0, 1⟩] rfl (by decide)

/-- C8 as stated fails: on the initialised sample canvas `drawPolygon` with an
empty point sequence does not complete; it stops at the check
`cds.size() >= 3`, and the context after the failed call is the context before
it, with no call made: neither the cap, join and line-width setup nor the
stroke has run. -/
theorem drawPolygon_empty_does_not_complete :
    (¬ ∃ d1, drawPolygon sampleDraw [] = .ok d1) ∧
    drawPolygon sampleDraw [] = .error "must have at least three points" ∧
    (drawPolygon.run sampleDraw []).1.dp_cr = some sampleContext ∧
    sampleContext.calls = [] := by
  have h : drawPolygon sampleDraw [] = .error "must have at least three points" := by
    simp [drawPolygon, drawPolygon.run, sampleDraw, sampleDrawIn]
  refine ⟨?_, h, ?_, rfl⟩
  · rintro ⟨d1, hd1⟩
    rw [h] at hd1
    cases hd1
  · simp [drawPolygon.run, sampleDraw, sampleDrawIn, sampleContext]

/-- C8, amended: on an initialised canvas `drawPolygon` with an empty point
sequence fails the check "must have at least three points" and does not
complete.  The object after the failed call is the object before it, and its
context is the context before the call with the same call list: no point is
mapped and no call at all (no cap, join or line-width setup, no move-to or
line-to, no stroke) has been made. -/
theorem drawPolygon_empty_precondition (d : MolDraw2DCairo K) (cr : cairo_t K)
    (hcr : d.dp_cr = some cr) :
    drawPolygon.run d [] = (d, .error "must have at least three points") ∧
    drawPolygon d [] = .error "must have at least three points" ∧
    (¬ ∃ d1, drawPolygon d [] = .ok d1) ∧
    ∃ cr1 : cairo_t K, (drawPolygon.run d []).1.dp_cr = some cr1 ∧ cr1 = cr ∧
      cr1.calls = cr.calls := by
  have hrun : drawPolygon.run d [] = (d, .error "must have at least three points") := by
    unfold drawPolygon.run
    rw [hcr]
    simp
  have hres : drawPolygon d [] = .error "must have at least three points" := by
    unfold drawPolygon
    rw [hrun]
  refine ⟨hrun, hres, ?_, cr, ?_, rfl, rfl⟩
  · rintro ⟨d1, hd1⟩
    rw [hres] at hd1
    cases hd1
  · rw [hrun]
    exact hcr

theorem drawPolygon_empty_precondition_witness :
    drawPolygon.run sampleDraw [] = (sampleDraw, .error "must have at least three points") ∧
    drawPolygon sampleDraw [] = .error "must have at least three points" ∧
    (¬ ∃ d1, drawPolygon sampleDraw [] = .ok d1) ∧
    ∃ cr1 : cairo_t ℚ, (drawPolygon.run sampleDraw []).1.dp_cr = some cr1 ∧
      cr1 = sampleContext ∧ cr1.calls = sampleContext.calls :=
  drawPolygon_empty_precondition sampleDraw sampleContext rfl

end PolygonTheorems

/-! ## Wavy lines -/

section WavyTheorems

variable {K : Type} [Field K]

/-- The loop of `drawWavyLine` appends one `curve_to` call per index and touches nothing else. -/
theorem drawWavyLine_loop (b : MolDraw2D K) (cds1 delta perp : Point2D K) (l : List Nat)
    (cr : cairo_t K) :
    l.foldl (drawWavyLine.body cds1 delta perp) { toMolDraw2D := b, dp_cr := some cr } =
      { toMolDraw2D := b, dp_cr := some { cr with calls := (cr.calls ++
          l.map (wavyCurveCall b.getDrawCoords cds1 delta perp)) } } := by
  induction l generalizing cr with
  | nil => simp
  | cons i l ih =>
    rw [List.foldl_cons]
    have hstep : drawWavyLine.body cds1 delta perp { toMolDraw2D := b, dp_cr := some cr } i =
        { toMolDraw2D := b, dp_cr := some { cr with calls := cr.calls ++
          [wavyCurveCall b.getDrawCoords cds1 delta perp i] } } := by
      simp [drawWavyLine.body, MolDraw2DCairo.on, cairo_curve_to, cairo_t.issue, wavyCurveCall,
        wavyControl1, wavyControl2, wavyStart, wavySign]
    rw [hstep, ih]
    simp

/-- Closed form of a successful `drawWavyLine`. -/
theorem drawWavyLine_eq (d : MolDraw2DCairo K) (cr : cairo_t K) (cds1 cds2 : Point2D K)
    (col1 col2 : DrawColour K) (n : Nat) (v : K) (hcr : d.dp_cr = some cr) (hn : 1 < n) :
    drawWavyLine d cds1 cds2 col1 col2 n v =
      .ok { d with colour := col1, dp_cr := some { cr with calls := (cr.calls ++
        wavyOpeningCalls d cds1 col1 ++
        (List.range (effectiveSegments n)).map (wavyCurveCall d.getDrawCoords cds1
          ((cds2 - cds1) / ((effectiveSegments n : Nat) : K)) (d.calcPerpendicular cds1 cds2 * v)) ++
        [CairoCall.stroke]) } } := by
  unfold drawWavyLine
  rw [hcr]
  have hn' : ¬ ¬ n > 1 := by simpa using hn
  simp only [hn', if_false, setColour, MolDraw2DCairo.on, Option.map_some']
  rw [drawWavyLine_loop]
  simp [effectiveSegments, wavyOpeningCalls, cairo_set_line_width, cairo_set_dash,
    cairo_set_source_rgb, cairo_move_to, cairo_stroke, cairo_t.issue]

/-- A successful `drawWavyLine` adds five calls and one curve per adjusted segment. -/
theorem drawWavyLine_callCount (d : MolDraw2DCairo K) (cr : cairo_t K) (cds1 cds2 : Point2D K)
    (col1 col2 : DrawColour K) (n : Nat) (v : K) (hcr : d.dp_cr = some cr) (hn : 1 < n) :
    callCount (drawWavyLine d cds1 cds2 col1 col2 n v) =
      cr.calls.length + 5 + effectiveSegments n := by
  rw [drawWavyLine_eq d cr cds1 cds2 col1 col2 n v hcr hn]
  simp only [callCount, List.length_append, List.length_map, List.length_range, wavyOpeningCalls,
    List.length_cons, List.length_nil]
  omega

/-- C1, amended: on an initialised canvas, for an odd segment count `n > 1`
below the largest `unsigned int` (so that `n + 1` is a segment count too),
`drawWavyLine` with `n` succeeds and yields exactly the state, hence exactly
the sequence of canvas calls, of the same call with `n + 1`. -/
theorem drawWavyLine_odd_eq_succ (d : MolDraw2DCairo K) (cr : cairo_t K) (cds1 cds2 : Point2D K)
    (col1 col2 : DrawColour K) (n : Nat) (v : K) (hcr : d.dp_cr = some cr)
    (hodd : n % 2 = 1) (hn : 1 < n) (hmax : n + 1 < 2 ^ 32) :
    (∃ d1, drawWavyLine d cds1 cds2 col1 col2 n v = .ok d1) ∧
    drawWavyLine d cds1 cds2 col1 col2 n v = drawWavyLine d cds1 cds2 col1 col2 (n + 1) v := by
  have e1 : effectiveSegments n = n + 1 := by
    have hm : (n + 1) % 2 ^ 32 = n + 1 := Nat.mod_eq_of_lt hmax
    unfold effectiveSegments
    rw [hm]
    simp [hodd]
  have e2 : effectiveSegments (n + 1) = n + 1 := by
    have : (n + 1) % 2 = 0 := by omega
    simp [effectiveSegments, this]
  rw [drawWavyLine_eq d cr cds1 cds2 col1 col2 n v hcr hn,
    drawWavyLine_eq d cr cds1 cds2 col1 col2 (n + 1) v hcr (by omega), e1, e2]
  exact ⟨⟨_, rfl⟩, rfl⟩

theorem drawWavyLine_odd_eq_succ_witness :
    (∃ d1, drawWavyLine sampleDraw ⟨0, 0⟩ ⟨3, 4⟩ ⟨1, 0, 0⟩ ⟨0, 0, 1⟩ 3 1 = .ok d1) ∧
    drawWavyLine sampleDraw ⟨0, 0⟩ ⟨3, 4⟩ ⟨1, 0, 0⟩ ⟨0, 0, 1⟩ 3 1 =
      drawWavyLine sampleDraw ⟨0, 0⟩ ⟨3, 4⟩ ⟨1, 0, 0⟩ ⟨0, 0, 1⟩ (3 + 1) 1 :=
  drawWavyLine_odd_eq_succ sampleDraw sampleContext ⟨0, 0⟩ ⟨3, 4⟩ ⟨1, 0, 0⟩ ⟨0, 0, 1⟩ 3 1 rfl
    (by decide) (by decide) (by decide)

/-- C1 as stated fails at the largest `unsigned int`, the odd count
`4294967295`: there `++nSegments` wraps to `0`, the call succeeds and issues
only the four opening calls and the stroke, without any curve; the same call
with the `unsigned int` successor of the count stops at the check
`nSegments > 1`, and with the count `4294967296` taken without reduction the
closed form has `4294967296` curve calls more. -/
theorem drawWavyLine_uint_max_differs :
    4294967295 % 2 = 1 ∧ 1 < 4294967295 ∧ 4294967295 < 2 ^ 32 ∧
    drawWavyLine sampleDraw ⟨0, 0⟩ ⟨3, 4⟩ ⟨1, 0, 0⟩ ⟨0, 0, 1⟩ 4294967295 1 =
      .ok { sampleDraw with colour := ⟨1, 0, 0⟩, dp_cr := some { sampleContext with calls :=
        [CairoCall.set_line_width 2, CairoCall.set_dash [] 0, CairoCall.set_source_rgb 1 0 0,
         CairoCall.move_to 10 20, CairoCall.stroke] } } ∧
    drawWavyLine sampleDraw ⟨0, 0⟩ ⟨3, 4⟩ ⟨1, 0, 0⟩ ⟨0, 0, 1⟩ ((4294967295 + 1) % 2 ^ 32) 1 =
      .error "too few segments" ∧
    drawWavyLine sampleDraw ⟨0, 0⟩ ⟨3, 4⟩ ⟨1, 0, 0⟩ ⟨0, 0, 1⟩ 4294967295 1 ≠
      drawWavyLine sampleDraw ⟨0, 0⟩ ⟨3, 4⟩ ⟨1, 0, 0⟩ ⟨0, 0, 1⟩ ((4294967295 + 1) % 2 ^ 32) 1 ∧
    drawWavyLine sampleDraw ⟨0, 0⟩ ⟨3, 4⟩ ⟨1, 0, 0⟩ ⟨0, 0, 1⟩ 4294967295 1 ≠
      drawWavyLine sampleDraw ⟨0, 0⟩ ⟨3, 4⟩ ⟨1, 0, 0⟩ ⟨0, 0, 1⟩ 4294967296 1 := by
  have hmax : effectiveSegments 4294967295 = 0 := by decide
  have hbig : effectiveSegments 4294967296 = 4294967296 := by decide
  have h1 : drawWavyLine sampleDraw ⟨0, 0⟩ ⟨3, 4⟩ ⟨1, 0, 0⟩ ⟨0, 0, 1⟩ 4294967295 1 =
      .ok { sampleDraw with colour := ⟨1, 0, 0⟩, dp_cr := some { sampleContext with calls :=
        [CairoCall.set_line_width 2, CairoCall.set_dash [] 0, CairoCall.set_source_rgb 1 0 0,
         CairoCall.move_to 10 20, CairoCall.stroke] } } := by
    rw [drawWavyLine_eq sampleDraw sampleContext ⟨0, 0⟩ ⟨3, 4⟩ ⟨1, 0, 0⟩ ⟨0, 0, 1⟩ 4294967295 1 rfl
      (by decide), hmax]
    simp [wavyOpeningCalls, sampleDraw, sampleContext, sampleDrawIn, sampleContextIn]
  have h2 : drawWavyLine sampleDraw ⟨0, 0⟩ ⟨3, 4⟩ ⟨1, 0, 0⟩ ⟨0, 0, 1⟩
      ((4294967295 + 1) % 2 ^ 32) 1 = .error "too few segments" := by
    simp [drawWavyLine, sampleDraw, sampleDrawIn]
  refine ⟨by decide, by decide, by decide, h1, h2, ?_, ?_⟩
  · rw [h1, h2]
    intro h
    cases h
  · intro h
    have hlen := congrArg callCount h
    rw [drawWavyLine_callCount sampleDraw sampleContext ⟨0, 0⟩ ⟨3, 4⟩ ⟨1, 0, 0⟩ ⟨0, 0, 1⟩
        4294967295 1 rfl (by decide),
      drawWavyLine_callCount sampleDraw sampleContext ⟨0, 0⟩ ⟨3, 4⟩ ⟨1, 0, 0⟩ ⟨0, 0, 1⟩
        4294967296 1 rfl (by decide), hmax, hbig] at hlen
    omega

/-- In exact arithmetic the end point of segment `i` is the start point of segment `i + 1`. -/
theorem wavyStart_succ (cds1 delta : Point2D K) (i : Nat) :
    wavyStart cds1 delta i + delta = wavyStart cds1 delta (i + 1) := by
  show (⟨cds1.x + delta.x * (i : K) + delta.x, cds1.y + delta.y * (i : K) + delta.y⟩ : Point2D K) =
    ⟨cds1.x + delta.x * ((i + 1 : Nat) : K), cds1.y + delta.y * ((i + 1 : Nat) : K)⟩
  congr 1 <;> push_cast <;> ring

/-- In exact arithmetic segment `0` starts at the first endpoint. -/
theorem wavyStart_zero (cds1 delta : Point2D K) : wavyStart cds1 delta 0 = cds1 := by
  show (⟨cds1.x + delta.x * ((0 : Nat) : K), cds1.y + delta.y * ((0 : Nat) : K)⟩ : Point2D K) = cds1
  simp

/-- C2: on an initialised canvas `drawWavyLine` with a segment count above `1`
succeeds and, in exact arithmetic, draws a continuous curve.  The call list
grows by the opening calls, the last of which moves to the mapped first
point `cds1`, then one curve per adjusted segment, then the stroke.  For every
`i` with `i + 1` below the adjusted segment count, the end point of curve `i`
is the mapped point `cds1 + delta * (i + 1)`, and the control points of curve
`i + 1` are computed from that same start point. -/
theorem drawWavyLine_continuous (d : MolDraw2DCairo K) (cr : cairo_t K) (cds1 cds2 : Point2D K)
    (col1 col2 : DrawColour K) (n : Nat) (v : K) (hcr : d.dp_cr = some cr) (hn : 1 < n) :
    ∃ (cr1 : cairo_t K) (curves : List (CairoCall K)),
      drawWavyLine d cds1 cds2 col1 col2 n v = .ok { d with colour := col1, dp_cr := some cr1 } ∧
      cr1.calls = cr.calls ++
        [CairoCall.set_line_width (d.getDrawLineWidth : K), CairoCall.set_dash [] 0,
         CairoCall.set_source_rgb col1.r col1.g col1.b,
         CairoCall.move_to (d.getDrawCoords cds1).x (d.getDrawCoords cds1).y] ++
        curves ++ [CairoCall.stroke] ∧
      curves.length = effectiveSegments n ∧
      ∀ i, i + 1 < effectiveSegments n →
        ∃ c1 c2 e : Point2D K,
          curves[i]? = some (CairoCall.curve_to c1.x c1.y c2.x c2.y
            (d.getDrawCoords (cds1 + wavyDelta cds1 cds2 n * ((i + 1 : Nat) : K))).x
            (d.getDrawCoords (cds1 + wavyDelta cds1 cds2 n * ((i + 1 : Nat) : K))).y) ∧
          curves[i + 1]? = some (CairoCall.curve_to
            (wavyControl1 d.getDrawCoords (cds1 + wavyDelta cds1 cds2 n * ((i + 1 : Nat) : K))
              (wavyDelta cds1 cds2 n) (wavyPerp d cds1 cds2 v) (wavySign (i + 1))).x
            (wavyControl1 d.getDrawCoords (cds1 + wavyDelta cds1 cds2 n * ((i + 1 : Nat) : K))
              (wavyDelta cds1 cds2 n) (wavyPerp d cds1 cds2 v) (wavySign (i + 1))).y
            (wavyControl2 d.getDrawCoords (cds1 + wavyDelta cds1 cds2 n * ((i + 1 : Nat) : K))
              (wavyDelta cds1 cds2 n) (wavyPerp d cds1 cds2 v) (wavySign (i + 1))).x
            (wavyControl2 d.getDrawCoords (cds1 + wavyDelta cds1 cds2 n * ((i + 1 : Nat) : K))
              (wavyDelta cds1 cds2 n) (wavyPerp d cds1 cds2 v) (wavySign (i + 1))).y
            e.x e.y) := by
  refine ⟨_, (List.range (effectiveSegments n)).map (wavyCurveCall d.getDrawCoords cds1
    (wavyDelta cds1 cds2 n) (wavyPerp d cds1 cds2 v)),
    drawWavyLine_eq d cr cds1 cds2 col1 col2 n v hcr hn, rfl, by simp, ?_⟩
  intro i hi
  have hi0 : i < effectiveSegments n := by omega
  refine ⟨wavyControl1 d.getDrawCoords (wavyStart cds1 (wavyDelta cds1 cds2 n) i)
      (wavyDelta cds1 cds2 n) (wavyPerp d cds1 cds2 v) (wavySign i),
    wavyControl2 d.getDrawCoords (wavyStart cds1 (wavyDelta cds1 cds2 n) i)
      (wavyDelta cds1 cds2 n) (wavyPerp d cds1 cds2 v) (wavySign i),
    d.getDrawCoords (wavyStart cds1 (wavyDelta cds1 cds2 n) (i + 1) + wavyDelta cds1 cds2 n),
    ?_, ?_⟩
  · rw [List.getElem?_map, List.getElem?_range hi0]
    simp only [Option.map_some', wavyCurveCall]
    rw [wavyStart_succ]
    rfl
  · rw [List.getElem?_map, List.getElem?_range hi]
    rfl

theorem drawWavyLine_continuous_witness :
    ∃ (cr1 : cairo_t ℚ) (curves : List (CairoCall ℚ)),
      drawWavyLine sampleDraw sampleStart sampleEnd sampleRed sampleBlue 3 1 =
        .ok { sampleDraw with colour := sampleRed, dp_cr := some cr1 } ∧
      cr1.calls = sampleContext.calls ++
        [CairoCall.set_line_width (sampleDraw.getDrawLineWidth : ℚ), CairoCall.set_dash [] 0,
         CairoCall.set_source_rgb sampleRed.r sampleRed.g sampleRed.b,
         CairoCall.move_to (sampleDraw.getDrawCoords sampleStart).x
           (sampleDraw.getDrawCoords sampleStart).y] ++
        curves ++ [CairoCall.stroke] ∧
      curves.length = effectiveSegments 3 ∧
      ∀ i, i + 1 < effectiveSegments 3 →
        ∃ c1 c2 e : Point2D ℚ,
          curves[i]? = some (CairoCall.curve_to c1.x c1.y c2.x c2.y
            (sampleDraw.getDrawCoords
              (sampleStart + wavyDelta sampleStart sampleEnd 3 * ((i + 1 : Nat) : ℚ))).x
            (sampleDraw.getDrawCoords
              (sampleStart + wavyDelta sampleStart sampleEnd 3 * ((i + 1 : Nat) : ℚ))).y) ∧
          curves[i + 1]? = some (CairoCall.curve_to
            (wavyControl1 sampleDraw.getDrawCoords
              (sampleStart + wavyDelta sampleStart sampleEnd 3 * ((i + 1 : Nat) : ℚ))
              (wavyDelta sampleStart sampleEnd 3) (wavyPerp sampleDraw sampleStart sampleEnd 1)
              (wavySign (i + 1))).x
            (wavyControl1 sampleDraw.getDrawCoords
              (sampleStart + wavyDelta sampleStart sampleEnd 3 * ((i + 1 : Nat) : ℚ))
              (wavyDelta sampleStart sampleEnd 3) (wavyPerp sampleDraw sampleStart sampleEnd 1)
              (wavySign (i + 1))).y
            (wavyControl2 sampleDraw.getDrawCoords
              (sampleStart + wavyDelta sampleStart sampleEnd 3 * ((i + 1 : Nat) : ℚ))
              (wavyDelta sampleStart sampleEnd 3) (wavyPerp sampleDraw sampleStart sampleEnd 1)
              (wavySign (i + 1))).x
            (wavyControl2 sampleDraw.getDrawCoords
              (sampleStart + wavyDelta sampleStart sampleEnd 3 * ((i + 1 : Nat) : ℚ))
              (wavyDelta sampleStart sampleEnd 3) (wavyPerp sampleDraw sampleStart sampleEnd 1)
              (wavySign (i + 1))).y
            e.x e.y) :=
  drawWavyLine_continuous sampleDraw sampleContext sampleStart sampleEnd sampleRed sampleBlue 3 1
    rfl (by decide)

theorem Point2D.add_x (a b : Point2D K) : (a + b).x = a.x + b.x := rfl
theorem Point2D.add_y (a b : Point2D K) : (a + b).y = a.y + b.y := rfl
theorem Point2D.sub_x (a b : Point2D K) : (a - b).x = a.x - b.x := rfl
theorem Point2D.sub_y (a b : Point2D K) : (a - b).y = a.y - b.y := rfl
theorem Point2D.mul_x (a : Point2D K) (k : K) : (a * k).x = a.x * k := rfl
theorem Point2D.mul_y (a : Point2D K) (k : K) : (a * k).y = a.y * k := rfl
theorem Point2D.div_x (a : Point2D K) (k : K) : (a / k).x = a.x / k := rfl
theorem Point2D.div_y (a : Point2D K) (k : K) : (a / k).y = a.y / k := rfl

theorem Point2D.mk_eta {α : Type} (p : Point2D α) : (⟨p.x, p.y⟩ : Point2D α) = p := rfl

theorem bezierArcs_wavy (g : Point2D K → Point2D K) (cds1 delta perp : Point2D K) (m k : Nat)
    (rest : List (CairoCall K)) :
    bezierArcs (g (wavyStart cds1 delta k))
        ((List.range' k m).map (wavyCurveCall g cds1 delta perp) ++ rest) =
      (List.range' k m).map (wavyArc g cds1 delta perp) ++
        bezierArcs (g (wavyStart cds1 delta (k + m))) rest := by
  induction m generalizing k with
  | zero => simp
  | succ m ih =>
    have hk : k + (m + 1) = k + 1 + m := by omega
    simp only [List.range'_succ, List.map_cons, List.cons_append, wavyCurveCall, bezierArcs,
      wavyStart_succ, Point2D.mk_eta, List.append_eq, ih (k + 1), wavyArc, hk]

theorem perp_cross_sq (dx dy ux uy : K) (h1 : ux * dx + uy * dy = 0) (h2 : ux ^ 2 + uy ^ 2 = 1) :
    (dx * uy - dy * ux) ^ 2 = dx ^ 2 + dy ^ 2 := by
  linear_combination (dx ^ 2 + dy ^ 2) * h2 - (ux * dx + uy * dy) * h1

theorem wavySign_sq (i : Nat) : (wavySign i : K) ^ 2 = 1 := by
  unfold wavySign; split_ifs <;> norm_num

/-- The arcs that a successful `drawWavyLine` adds to the path: one per
adjusted segment, each from the start point of its segment to the start point
of the next. -/
theorem drawWavyLine_arcs (d : MolDraw2DCairo K) (cr : cairo_t K) (cds1 cds2 : Point2D K)
    (col1 col2 : DrawColour K) (n : Nat) (v : K) (o : Point2D K) (hcr : d.dp_cr = some cr)
    (hn : 1 < n) :
    ∃ (cr1 : cairo_t K) (new : List (CairoCall K)),
      drawWavyLine d cds1 cds2 col1 col2 n v = .ok { d with colour := col1, dp_cr := some cr1 } ∧
      cr1.calls = cr.calls ++ new ∧
      bezierArcs o new = (List.range (effectiveSegments n)).map
        (wavyArc d.getDrawCoords cds1 (wavyDelta cds1 cds2 n) (wavyPerp d cds1 cds2 v)) := by
  refine ⟨{ cr with calls := (cr.calls ++ (wavyOpeningCalls d cds1 col1 ++
      ((List.range (effectiveSegments n)).map (wavyCurveCall d.getDrawCoords cds1
        (wavyDelta cds1 cds2 n) (wavyPerp d cds1 cds2 v)) ++ [CairoCall.stroke]))) },
    wavyOpeningCalls d cds1 col1 ++
    ((List.range (effectiveSegments n)).map (wavyCurveCall d.getDrawCoords cds1
      (wavyDelta cds1 cds2 n) (wavyPerp d cds1 cds2 v)) ++ [CairoCall.stroke]),
    ?_, rfl, ?_⟩
  · rw [drawWavyLine_eq d cr cds1 cds2 col1 col2 n v hcr hn]
    simp [wavyDelta, wavyPerp, List.append_assoc]
  · have h0 := bezierArcs_wavy d.getDrawCoords cds1 (wavyDelta cds1 cds2 n)
      (wavyPerp d cds1 cds2 v) (effectiveSegments n) 0 [CairoCall.stroke]
    rw [wavyStart_zero, ← List.range_eq_range'] at h0
    simp only [wavyOpeningCalls, List.cons_append, List.nil_append, bezierArcs, Point2D.mk_eta,
      List.append_eq, h0, List.append_nil]

end WavyTheorems

section AmplitudeTheorems

variable {K : Type} [LinearOrderedField K]

theorem wavyArc_cross (g : Point2D K → Point2D K) (s tx ty : K) (cds1 cds2 u : Point2D K)
    (v : K) (N i : Nat) (t : K) (hmap : ∀ p, g p = ⟨s * p.x + tx, s * p.y + ty⟩) (hN : N ≠ 0) :
    ((g cds2).x - (g cds1).x) *
        (((wavyArc g cds1 ((cds2 - cds1) / (N : K)) (u * v) i).point t).y - (g cds1).y) -
      ((g cds2).y - (g cds1).y) *
        (((wavyArc g cds1 ((cds2 - cds1) / (N : K)) (u * v) i).point t).x - (g cds1).x) =
      s ^ 2 * (wavySign i * v * (3 * t * (1 - t))) *
        ((cds2.x - cds1.x) * u.y - (cds2.y - cds1.y) * u.x) := by
  have hN' : (N : K) ≠ 0 := Nat.cast_ne_zero.mpr hN
  simp only [BezierArc.point, wavyArc, wavyControl1, wavyControl2, wavyStart, hmap,
    Point2D.add_x, Point2D.add_y, Point2D.sub_x, Point2D.sub_y, Point2D.mul_x, Point2D.mul_y,
    Point2D.div_x, Point2D.div_y]
  push_cast
  field_simp
  ring

theorem wavyArc_amplitude (g : Point2D K → Point2D K) (s tx ty : K) (cds1 cds2 u : Point2D K)
    (v : K) (N i : Nat) (hs : 0 < s) (hmap : ∀ p, g p = ⟨s * p.x + tx, s * p.y + ty⟩)
    (hne : cds1 ≠ cds2) (hu1 : u.x * (cds2.x - cds1.x) + u.y * (cds2.y - cds1.y) = 0)
    (hu2 : u.x ^ 2 + u.y ^ 2 = 1) (hN : N ≠ 0) :
    IsAmplitude (g cds1) (g cds2) (wavyArc g cds1 ((cds2 - cds1) / (N : K)) (u * v) i)
      (3 / 4 * s * |v|) := by
  set L : K := (cds2.x - cds1.x) ^ 2 + (cds2.y - cds1.y) ^ 2 with hL
  set c : K := (cds2.x - cds1.x) * u.y - (cds2.y - cds1.y) * u.x with hc
  have hcL : c ^ 2 = L := perp_cross_sq _ _ _ _ hu1 hu2
  have hσ : (wavySign i : K) ^ 2 = 1 := wavySign_sq i
  have habs : |v| ^ 2 = v ^ 2 := sq_abs v
  have hLpos : 0 < L := by
    have hd : cds2.x - cds1.x ≠ 0 ∨ cds2.y - cds1.y ≠ 0 := by
      by_contra hcon
      push_neg at hcon
      apply hne
      cases cds1; cases cds2
      simp only [Point2D.mk.injEq]
      simp only at hcon
      exact ⟨(sub_eq_zero.mp hcon.1).symm, (sub_eq_zero.mp hcon.2).symm⟩
    rcases hd with hd | hd
    · have hp : 0 < (cds2.x - cds1.x) ^ 2 := by positivity
      have hq := sq_nonneg (cds2.y - cds1.y)
      rw [hL]
      linarith
    · have hp : 0 < (cds2.y - cds1.y) ^ 2 := by positivity
      have hq := sq_nonneg (cds2.x - cds1.x)
      rw [hL]
      linarith
  have hnorm : ((g cds2).x - (g cds1).x) ^ 2 + ((g cds2).y - (g cds1).y) ^ 2 = s ^ 2 * L := by
    simp only [hmap, hL]
    ring
  have hdist : ∀ t dist, 0 ≤ t → t ≤ 1 →
      (IsPerpDistance (g cds1) (g cds2)
        ((wavyArc g cds1 ((cds2 - cds1) / (N : K)) (u * v) i).point t) dist ↔
        dist = s * |v| * (3 * t * (1 - t))) := by
    intro t dist ht0 ht1
    unfold IsPerpDistance
    rw [hnorm, wavyArc_cross g s tx ty cds1 cds2 u v N i t hmap hN]
    have hg : 0 ≤ 3 * t * (1 - t) := by nlinarith
    have hrhs : 0 ≤ s * |v| * (3 * t * (1 - t)) :=
      mul_nonneg (mul_nonneg hs.le (abs_nonneg v)) hg
    have hsL : 0 < s ^ 2 * L := mul_pos (pow_pos hs 2) hLpos
    constructor
    · rintro ⟨h0, heq⟩
      have h2 : dist ^ 2 = (s * |v| * (3 * t * (1 - t))) ^ 2 := by
        have : dist ^ 2 * (s ^ 2 * L) = (s * |v| * (3 * t * (1 - t))) ^ 2 * (s ^ 2 * L) := by
          rw [heq]
          linear_combination (-(s ^ 4 * (3 * t * (1 - t)) ^ 2 * L)) * habs
            + (s ^ 4 * v ^ 2 * (3 * t * (1 - t)) ^ 2) * hcL
            + (s ^ 4 * v ^ 2 * (3 * t * (1 - t)) ^ 2 * c ^ 2) * hσ
        exact mul_right_cancel₀ hsL.ne' this
      exact (sq_eq_sq₀ h0 hrhs).mp h2
    · rintro rfl
      refine ⟨hrhs, ?_⟩
      linear_combination (s ^ 4 * (3 * t * (1 - t)) ^ 2 * L) * habs
            - (s ^ 4 * v ^ 2 * (3 * t * (1 - t)) ^ 2) * hcL
            - (s ^ 4 * v ^ 2 * (3 * t * (1 - t)) ^ 2 * c ^ 2) * hσ
  constructor
  · intro t dist ht0 ht1 hd
    rw [(hdist t dist ht0 ht1).mp hd]
    have hg : 3 * t * (1 - t) ≤ 3 / 4 := by nlinarith [sq_nonneg (2 * t - 1)]
    have hsv : 0 ≤ s * |v| := mul_nonneg hs.le (abs_nonneg v)
    calc s * |v| * (3 * t * (1 - t)) ≤ s * |v| * (3 / 4) := mul_le_mul_of_nonneg_left hg hsv
      _ = 3 / 4 * s * |v| := by ring
  · refine ⟨1 / 2, by norm_num, by norm_num, ?_⟩
    rw [hdist (1 / 2) _ (by norm_num) (by norm_num)]
    ring

/-- An arc has at most one amplitude over a given line. -/
theorem IsAmplitude.unique {a b : Point2D K} {arc : BezierArc K} {amp1 amp2 : K}
    (h1 : IsAmplitude a b arc amp1) (h2 : IsAmplitude a b arc amp2) : amp1 = amp2 := by
  obtain ⟨t1, ht10, ht11, hd1⟩ := h1.2
  obtain ⟨t2, ht20, ht21, hd2⟩ := h2.2
  exact le_antisymm (h2.1 t1 amp1 ht10 ht11 hd1) (h1.1 t2 amp2 ht20 ht21 hd2)

/-- C3, amended: for a `drawWavyLine` call on an initialised canvas with
distinct endpoints and a segment count above `1`, with the coordinate mapper a
uniform scaling by `s > 0` plus a translation, the perpendicular helper
returning a unit perpendicular and arithmetic exact, the call succeeds, adds
one Bezier arc per adjusted segment, and the amplitude of every arc (the
largest perpendicular distance of the cubic through the control points handed
to curve-to from the straight line between the mapped endpoints) is
`3/4 * s * |vertOffset|`. -/
theorem drawWavyLine_amplitude (d : MolDraw2DCairo K) (cr : cairo_t K)
    (cds1 cds2 : Point2D K) (col1 col2 : DrawColour K) (n : Nat) (v s tx ty : K) (o : Point2D K)
    (hcr : d.dp_cr = some cr) (hn : 1 < n) (hne : cds1 ≠ cds2) (hs : 0 < s)
    (hmap : ∀ p, d.getDrawCoords p = ⟨s * p.x + tx, s * p.y + ty⟩)
    (hperp : IsUnitPerpendicular cds1 cds2 (d.calcPerpendicular cds1 cds2)) :
    ∃ (cr1 : cairo_t K) (new : List (CairoCall K)),
      drawWavyLine d cds1 cds2 col1 col2 n v = .ok { d with colour := col1, dp_cr := some cr1 } ∧
      cr1.calls = cr.calls ++ new ∧
      (bezierArcs o new).length = effectiveSegments n ∧
      ∀ arc ∈ bezierArcs o new,
        IsAmplitude (d.getDrawCoords cds1) (d.getDrawCoords cds2) arc (3 / 4 * s * |v|) := by
  obtain ⟨cr1, new, hok, hcalls, harcs⟩ := drawWavyLine_arcs d cr cds1 cds2 col1 col2 n v o hcr hn
  refine ⟨cr1, new, hok, hcalls, by simp [harcs], ?_⟩
  intro arc harc
  rw [harcs, List.mem_map] at harc
  obtain ⟨i, hi, rfl⟩ := harc
  have hN : effectiveSegments n ≠ 0 := by
    have := List.mem_range.mp hi
    omega
  exact wavyArc_amplitude d.getDrawCoords s tx ty cds1 cds2 (d.calcPerpendicular cds1 cds2) v
    (effectiveSegments n) i hs hmap hne hperp.1 hperp.2 hN

theorem drawWavyLine_amplitude_witness :
    ∃ (cr1 : cairo_t ℚ) (new : List (CairoCall ℚ)),
      drawWavyLine sampleDraw sampleStart sampleEnd sampleRed sampleBlue 3 1 =
        .ok { sampleDraw with colour := sampleRed, dp_cr := some cr1 } ∧
      cr1.calls = sampleContext.calls ++ new ∧
      (bezierArcs sampleStart new).length = effectiveSegments 3 ∧
      ∀ arc ∈ bezierArcs sampleStart new,
        IsAmplitude (sampleDraw.getDrawCoords sampleStart) (sampleDraw.getDrawCoords sampleEnd)
          arc (3 / 4 * 2 * |1|) :=
  drawWavyLine_amplitude sampleDraw sampleContext sampleStart sampleEnd sampleRed sampleBlue 3 1
    2 10 20 sampleStart rfl (by decide)
    (by
      intro h
      have hx := congrArg Point2D.x h
      norm_num [sampleStart, sampleEnd] at hx)
    (by norm_num) (fun _ => rfl)
    (by norm_num [IsUnitPerpendicular, sampleDraw, sampleDrawIn, sampleStart, sampleEnd])

/-- C3 as stated fails over the reals: for the sample drawing object, whose
mapper scales by `s = 2` and translates by `(10, 20)`, the wavy line from
`(0, 0)` to `(3, 4)` with two segments and vertical offset `1` consists of two
arcs, and `s * |vertOffset| = 2 * |1|` is the amplitude of neither (their
amplitude is `3/4 * 2 * |1|`). -/
theorem drawWavyLine_amplitude_not_offset :
    (∀ p : Point2D ℝ, (sampleDrawIn ℝ).getDrawCoords p = ⟨2 * p.x + 10, 2 * p.y + 20⟩) ∧
    IsUnitPerpendicular (⟨0, 0⟩ : Point2D ℝ) ⟨3, 4⟩
      ((sampleDrawIn ℝ).calcPerpendicular ⟨0, 0⟩ ⟨3, 4⟩) ∧
    ∃ (cr1 : cairo_t ℝ) (new : List (CairoCall ℝ)),
      drawWavyLine (sampleDrawIn ℝ) ⟨0, 0⟩ ⟨3, 4⟩ ⟨1, 0, 0⟩ ⟨0, 0, 1⟩ 2 1 =
        .ok { sampleDrawIn ℝ with colour := ⟨1, 0, 0⟩, dp_cr := some cr1 } ∧
      cr1.calls = (sampleContextIn ℝ).calls ++ new ∧
      (bezierArcs ⟨0, 0⟩ new).length = 2 ∧
      ∀ arc ∈ bezierArcs ⟨0, 0⟩ new,
        IsAmplitude ((sampleDrawIn ℝ).getDrawCoords ⟨0, 0⟩) ((sampleDrawIn ℝ).getDrawCoords ⟨3, 4⟩)
          arc (3 / 4 * 2 * |1|) ∧
        ¬ IsAmplitude ((sampleDrawIn ℝ).getDrawCoords ⟨0, 0⟩)
          ((sampleDrawIn ℝ).getDrawCoords ⟨3, 4⟩) arc (2 * |1|) := by
  have hperp : IsUnitPerpendicular (⟨0, 0⟩ : Point2D ℝ) ⟨3, 4⟩
      ((sampleDrawIn ℝ).calcPerpendicular ⟨0, 0⟩ ⟨3, 4⟩) := by
    norm_num [IsUnitPerpendicular, sampleDrawIn]
  have hne : (⟨0, 0⟩ : Point2D ℝ) ≠ ⟨3, 4⟩ := by
    intro h
    have hx := congrArg Point2D.x h
    norm_num at hx
  refine ⟨fun _ => rfl, hperp, ?_⟩
  obtain ⟨cr1, new, hok, hcalls, harcs⟩ := drawWavyLine_arcs (sampleDrawIn ℝ) (sampleContextIn ℝ)
    ⟨0, 0⟩ ⟨3, 4⟩ ⟨1, 0, 0⟩ ⟨0, 0, 1⟩ 2 1 ⟨0, 0⟩ rfl (by decide)
  have hseg : effectiveSegments 2 = 2 := by decide
  refine ⟨cr1, new, hok, hcalls, by simp [harcs, hseg], ?_⟩
  intro arc harc
  rw [harcs, List.mem_map] at harc
  obtain ⟨i, -, rfl⟩ := harc
  have hamp := wavyArc_amplitude (sampleDrawIn ℝ).getDrawCoords 2 10 20 ⟨0, 0⟩ ⟨3, 4⟩
    ((sampleDrawIn ℝ).calcPerpendicular ⟨0, 0⟩ ⟨3, 4⟩) 1 (effectiveSegments 2) i (by norm_num)
    (fun _ => rfl) hne hperp.1 hperp.2 (by decide)
  refine ⟨hamp, fun hbad => ?_⟩
  have heq := IsAmplitude.unique hamp hbad
  norm_num at heq

end AmplitudeTheorems

/-! ## Text metrics -/

section TextTheorems

variable {K : Type} [LinearOrderedField K]

theorem tagAt_of_head_ne (c : Char) (cs : List Char) (h : c ≠ '<') : tagAt (c :: cs) = none := by
  unfold tagAt
  have h' : ¬ c = '<' := h
  simp [List.take_succ_cons, h']

theorem setStringDrawMode_eq_tagAt (label : List Char) (mode : TextDrawType) (i : Nat) :
    setStringDrawMode label mode i =
      match tagAt (label.drop i) with
      | some (m, k) => (true, m, i + k)
      | none => (false, mode, i) := by
  unfold setStringDrawMode tagAt substr
  simp only []
  split_ifs <;> rfl

theorem loop_step (cr : cairo_t K) (label : List Char) (i : Nat) (st : LabelScan K)
    (h : i < label.length) :
    getStringSize.loop cr label i st =
      match tagAt (label.drop i) with
      | some (m, k) => getStringSize.loop cr label (i + k + 1) { st with draw_mode := m }
      | none => getStringSize.loop cr label (i + 1) (addGlyph cr label[i] st) := by
  have hdrop : label.drop i = label[i] :: label.drop (i + 1) := List.drop_eq_getElem_cons h
  rw [getStringSize.loop]
  simp only [h, dite_true]
  by_cases hc : label[i] = '<'
  · simp only [hc, if_true, setStringDrawMode_eq_tagAt]
    cases htag : tagAt (List.drop i label) with
    | none => simp [addGlyph, hc]
    | some mk =>
      obtain ⟨m, k⟩ := mk
      simp
  · have hnone : tagAt (List.drop i label) = none := by
      rw [hdrop]
      exact tagAt_of_head_ne _ _ hc
    simp only [hc, if_false, hnone]
    simp [addGlyph]

theorem loop_eq_scanChars (cr : cairo_t K) (label : List Char) (i : Nat) (st : LabelScan K) :
    getStringSize.loop cr label i st = scanChars cr (label.drop i) st := by
  generalize hm : label.length - i = m
  induction m using Nat.strong_induction_on generalizing i st with
  | _ m ih =>
    subst hm
    by_cases h : i < label.length
    · have hdrop : label.drop i = label[i] :: label.drop (i + 1) := List.drop_eq_getElem_cons h
      rw [loop_step cr label i st h]
      cases htag : tagAt (List.drop i label) with
      | none =>
        simp only []
        rw [ih (label.length - (i + 1)) (by omega) (i + 1) _ rfl, hdrop, scanChars]
        rw [hdrop] at htag
        simp only [htag]
      | some mk =>
        obtain ⟨m', k⟩ := mk
        simp only []
        rw [ih (label.length - (i + k + 1)) (by omega) (i + k + 1) _ rfl, hdrop, scanChars]
        rw [hdrop] at htag
        simp only [htag, List.drop_drop]
        congr 2
        omega
    · rw [getStringSize.loop]
      simp only [h, dite_false]
      rw [List.drop_eq_nil_of_le (by omega), scanChars]

theorem scanChars_nil (cr : cairo_t K) (st : LabelScan K) : scanChars cr [] st = st := by
  rw [scanChars]

theorem scanChars_cons_tag (cr : cairo_t K) (c : Char) (cs : List Char) (st : LabelScan K)
    (m : TextDrawType) (k : Nat) (h : tagAt (c :: cs) = some (m, k)) :
    scanChars cr (c :: cs) st = scanChars cr (cs.drop k) { st with draw_mode := m } := by
  rw [scanChars]
  simp only [h]

theorem scanChars_cons_glyph (cr : cairo_t K) (c : Char) (cs : List Char) (st : LabelScan K)
    (h : tagAt (c :: cs) = none) :
    scanChars cr (c :: cs) st = scanChars cr cs (addGlyph cr c st) := by
  rw [scanChars]
  simp only [h]

theorem scanChars_congr (cr cr' : cairo_t K) (l : List Char) (st : LabelScan K)
    (h : ∀ txt, cairo_text_extents cr txt = cairo_text_extents cr' txt) :
    scanChars cr l st = scanChars cr' l st := by
  generalize hn : l.length = n
  induction n using Nat.strong_induction_on generalizing l st with
  | _ n ih =>
    subst hn
    cases l with
    | nil => rw [scanChars_nil, scanChars_nil]
    | cons a cs =>
      cases hta : tagAt (a :: cs) with
      | none =>
        rw [scanChars_cons_glyph cr a cs st hta, scanChars_cons_glyph cr' a cs st hta]
        have hg : addGlyph cr a st = addGlyph cr' a st := by
          unfold addGlyph
          rw [h]
        rw [hg]
        exact ih cs.length (by simp) cs _ rfl
      | some mk =>
        obtain ⟨m, k⟩ := mk
        rw [scanChars_cons_tag cr a cs st m k hta, scanChars_cons_tag cr' a cs st m k hta]
        refine ih (cs.drop k).length ?_ (cs.drop k) _ rfl
        simp only [List.length_drop, List.length_cons]
        omega

theorem getStringSize_eq (d : MolDraw2DCairo K) (cr : cairo_t K) (label : List Char)
    (hcr : d.dp_cr = some cr) :
    getStringSize d label =
      .ok ({ d with dp_cr := some (cairo_set_font_size cr d.fontSize) },
        (scanChars (cairo_set_font_size cr d.fontSize) label scanStart).label_width,
        (if (scanChars (cairo_set_font_size cr d.fontSize) label scanStart).had_a_super = true
          then (scanChars (cairo_set_font_size cr d.fontSize) label scanStart).label_height
            * (5 / 4 : K)
          else (scanChars (cairo_set_font_size cr d.fontSize) label scanStart).label_height)
        * (6 / 5 : K)) := by
  unfold getStringSize
  rw [hcr]
  simp only [loop_eq_scanChars, List.drop_zero]
  rfl

/-- C6: on an initialised canvas `drawChar c p` succeeds for every character
`c`, the period included, and leaves the font size of the context at the base
font size `fontSize()`; the base-class state is untouched, and `getStringSize`
of any label called on the resulting object returns the width and height it
returns without the preceding `drawChar`. -/
theorem drawChar_restores_font_size (d : MolDraw2DCairo K) (cr : cairo_t K) (c : Char)
    (p : Point2D K) (hcr : d.dp_cr = some cr) :
    ∃ (d1 : MolDraw2DCairo K) (cr1 : cairo_t K),
      drawChar d c p = .ok d1 ∧ d1.dp_cr = some cr1 ∧ cr1.font_size = d.fontSize ∧
      d1.fontSize = d.fontSize ∧
      ∀ label : List Char, ∃ (d2 d3 : MolDraw2DCairo K) (w h : K),
        getStringSize d1 label = .ok (d2, w, h) ∧ getStringSize d label = .ok (d3, w, h) := by
  have hdc : ∃ cr1 : cairo_t K, drawChar d c p = .ok { d with dp_cr := some cr1 } ∧
      cr1.font_size = d.fontSize ∧ cr1.glyph_metrics = cr.glyph_metrics := by
    unfold drawChar
    rw [hcr]
    by_cases hc : c = '.'
    · simp only [hc, if_true]
      exact ⟨_, rfl, rfl, rfl⟩
    · simp only [hc, if_false]
      exact ⟨_, rfl, rfl, rfl⟩
  obtain ⟨cr1, hok, hfs, hgm⟩ := hdc
  refine ⟨_, cr1, hok, rfl, hfs, rfl, ?_⟩
  intro label
  have hcongr : ∀ txt, cairo_text_extents (cairo_set_font_size cr1 d.fontSize) txt =
      cairo_text_extents (cairo_set_font_size cr d.fontSize) txt := by
    intro txt
    simp [cairo_text_extents, cairo_set_font_size, hgm]
  rw [getStringSize_eq _ cr1 label rfl, getStringSize_eq d cr label hcr]
  simp only [scanChars_congr _ _ label _ hcongr]
  exact ⟨_, _, _, _, rfl, rfl⟩

theorem drawChar_restores_font_size_witness :
    ∃ (d1 : MolDraw2DCairo ℚ) (cr1 : cairo_t ℚ),
      drawChar sampleDraw '.' ⟨1, 2⟩ = .ok d1 ∧ d1.dp_cr = some cr1 ∧
      cr1.font_size = sampleDraw.fontSize ∧ d1.fontSize = sampleDraw.fontSize ∧
      ∀ label : List Char, ∃ (d2 d3 : MolDraw2DCairo ℚ) (w h : ℚ),
        getStringSize d1 label = .ok (d2, w, h) ∧ getStringSize sampleDraw label = .ok (d3, w, h) :=
  drawChar_restores_font_size sampleDraw sampleContext '.' ⟨1, 2⟩ rfl

theorem tagAt_sub (r : List Char) :
    tagAt ('<' :: 's' :: 'u' :: 'b' :: '>' :: r) = some (.TextDrawSubscript, 4) := by
  simp [tagAt]

/-- One glyph on the sample canvas at the base font size `10`: advance `5`, height `10`. -/
theorem sample_glyph (c : Char) (st : LabelScan ℚ) :
    addGlyph (cairo_set_font_size sampleContext sampleDraw.fontSize) c st =
      (if st.draw_mode = .TextDrawSubscript then
        { st with label_height := max st.label_height 10, label_width := st.label_width + 15 / 4 }
      else if st.draw_mode = .TextDrawSuperscript then
        { st with label_height := max st.label_height 10, label_width := st.label_width + 15 / 4,
                  had_a_super := true }
      else { st with label_height := max st.label_height 10,
                     label_width := st.label_width + 5 }) := by
  simp only [addGlyph, cairo_text_extents, cairo_set_font_size, sampleContext, sampleContextIn,
    sampleDraw, sampleDrawIn]
  norm_num

/-- The restriction of C4 to literal characters is needed: on the sample canvas
the label `<sub` is four glyphs wide, and appending `>` completes a tag, which
leaves no glyph at all. -/
theorem getStringSize_width_tag_completed :
    ¬ IsLiteralAfter ['<', 's', 'u', 'b'] '>' ∧
    ∃ (d1 : MolDraw2DCairo ℚ) (h1 h2 : ℚ),
      getStringSize sampleDraw ['<', 's', 'u', 'b'] = .ok (d1, 20, h1) ∧
      getStringSize sampleDraw (['<', 's', 'u', 'b'] ++ ['>']) = .ok (d1, 0, h2) := by
  constructor
  · unfold IsLiteralAfter markupTags
    decide
  · rw [getStringSize_eq sampleDraw sampleContext _ rfl,
      getStringSize_eq sampleDraw sampleContext _ rfl]
    have e1 : scanChars (cairo_set_font_size sampleContext sampleDraw.fontSize)
        ['<', 's', 'u', 'b'] scanStart =
        { label_width := 20, label_height := 10, draw_mode := .TextDrawNormal,
          had_a_super := false } := by
      rw [scanChars_cons_glyph _ _ _ _ (by decide), scanChars_cons_glyph _ _ _ _ (by decide),
        scanChars_cons_glyph _ _ _ _ (by decide), scanChars_cons_glyph _ _ _ _ (by decide),
        scanChars_nil]
      simp [sample_glyph, scanStart]
      norm_num
    have e2 : scanChars (cairo_set_font_size sampleContext sampleDraw.fontSize)
        (['<', 's', 'u', 'b'] ++ ['>']) scanStart =
        { label_width := 0, label_height := 0, draw_mode := .TextDrawSubscript,
          had_a_super := false } := by
      rw [List.cons_append, List.cons_append, List.cons_append, List.cons_append, List.nil_append,
        scanChars_cons_tag _ _ _ _ _ _ (tagAt_sub []), List.drop_succ_cons, List.drop_succ_cons,
        List.drop_succ_cons, List.drop_succ_cons, List.drop_zero, scanChars_nil]
      rfl
    rw [e1, e2]
    exact ⟨_, _, _, rfl, rfl⟩

end TextTheorems

/-! ## Serialisation -/

/-- Driven by `grab_str`, the stream writer appends all chunks in order and reports success. -/
theorem write_to_png_stream_grab_str (emitted : List (List UInt8)) (closure : List UInt8) :
    cairo_surface_write_to_png_stream emitted grab_str closure =
      (closure ++ emitted.flatten, .SUCCESS) := by
  induction emitted generalizing closure with
  | nil => simp [cairo_surface_write_to_png_stream]
  | cons chunk rest ih =>
    simp [cairo_surface_write_to_png_stream, grab_str, ih]

/-- C10: on an initialised canvas, for every sequence of chunks that the
encoder emits through the write callback, `getDrawingText` returns the
concatenation of the chunks in emission order; the callback `grab_str` appends
exactly the `len` bytes of the chunk it is handed to the string it is given
and reports success, and the string starts out empty. -/
theorem getDrawingText_concat {K : Type} (d : MolDraw2DCairo K) (cr : cairo_t K)
    (emitted : List (List UInt8)) (hcr : d.dp_cr = some cr) :
    getDrawingText d emitted = .ok emitted.flatten ∧
    getDrawingText d [] = .ok [] ∧
    ∀ (closure data : List UInt8) (len : Nat),
      grab_str closure data len = (closure ++ data.take len, .SUCCESS) := by
  refine ⟨?_, ?_, fun _ _ _ => rfl⟩
  · unfold getDrawingText
    rw [hcr]
    simp [write_to_png_stream_grab_str]
  · unfold getDrawingText
    rw [hcr]
    simp [write_to_png_stream_grab_str]

theorem getDrawingText_concat_witness :
    getDrawingText sampleDraw [[137, 80], [], [78, 71, 13]] =
      .ok ([[137, 80], [], [78, 71, 13]] : List (List UInt8)).flatten ∧
    getDrawingText sampleDraw [] = .ok [] ∧
    ∀ (closure data : List UInt8) (len : Nat),
      grab_str closure data len = (closure ++ data.take len, .SUCCESS) :=
  getDrawingText_concat sampleDraw sampleContext [[137, 80], [], [78, 71, 13]] rfl

end RDKit
